import Mathlib

/-!
Verification of the recursive tile layout engine of the window-tiler demo
(`src/window-tiler-challenge-starter-code/src/App.tsx`).

The engine maintains a binary tree of split/leaf nodes (`LayoutNode`),
computes pixel bounds for every node (`computeBounds`), hit-tests a cursor
position (`findDeepestNodeAtPoint`, `hitTestForPreview`) and mutates the
tree (`insertIntoLayout`, `removeWindowFromLayout`).

Modelling choices:
* JavaScript numbers are modelled as exact rationals (`ℚ`); `Math.floor`
  is `qfloor` and `Math.round` is `jround` (floor of x + 1/2, the JS
  round-half-up rule).  Window ids are integers (`Int`).
* Node ids in the source are random strings from `makeId`; here they are
  naturals drawn from a counter threaded through the mutators, in the
  exact order the source calls `makeId`.  `deepClone` (a JSON round-trip
  of plain data) is the identity on this model.
* `windowId?: number | null` is `Option Int` (both `undefined` and `null`
  compare equal to `null` via `==` in the source, and `=== windowId` for
  a numeric `windowId` holds exactly for that number).
-/

namespace WindowTiler

inductive Orientn where
  | vertical
  | horizontal
deriving DecidableEq, Repr

inductive Side where
  | left
  | right
  | top
  | bottom
deriving DecidableEq, Repr

/-- `LayoutNode` from the source: a tagged union of
`LayoutLeaf { id, windowId?: number | null }` and
`LayoutSplit { id, orientation, ratio, first, second }`.
The TypeScript types make `first` and `second` non-nullable, so every
split has exactly two children by construction. -/
inductive LayoutNode where
  | leaf (id : ℕ) (windowId : Option ℤ)
  | split (id : ℕ) (o : Orientn) (r : ℚ) (first second : LayoutNode)
deriving DecidableEq, Repr

def nodeId : LayoutNode → ℕ
  | .leaf i _ => i
  | .split i _ _ _ _ => i

def isLeafNode : LayoutNode → Bool
  | .leaf _ _ => true
  | .split _ _ _ _ _ => false

/-- JavaScript `Math.floor` on an exact rational, as a rational. -/
def qfloor (q : ℚ) : ℚ := (⌊q⌋ : ℤ)

/-- JavaScript `Math.round` (round half towards positive infinity). -/
def jround (q : ℚ) : ℚ := qfloor (q + 1/2)

structure Bounds where
  x : ℚ
  y : ℚ
  width : ℚ
  height : ℚ
deriving DecidableEq, Repr

structure SnapPreview where
  x : ℚ
  y : ℚ
  width : ℚ
  height : ℚ
  targetNodeId : Option ℕ
  side : Side
deriving DecidableEq, Repr

/-- `const orientation = (side === "left" || side === "right") ? "vertical" : "horizontal"`. -/
def sideOrientn (side : Side) : Orientn :=
  if side = Side.left ∨ side = Side.right then Orientn.vertical else Orientn.horizontal

/-- `const newFirstIsWindow = (side === "left" || side === "top")`. -/
def newFirstIsWindow (side : Side) : Bool :=
  side = Side.left ∨ side = Side.top

/-- `computeBounds` on a non-null node: records the node's rectangle and
recurses into a split's children, giving the first child
`Math.floor(extent * ratio)` of the split axis and the second child the
rest.  The source writes the rectangles into a `Map`; here the `set`
calls are collected in order into a list. -/
def computeBoundsNode : LayoutNode → ℚ → ℚ → ℚ → ℚ → List (ℕ × Bounds)
  | .leaf i _, x, y, w, h => [(i, ⟨x, y, w, h⟩)]
  | .split i o r f s, x, y, w, h =>
    (i, ⟨x, y, w, h⟩) ::
      (match o with
       | .vertical =>
         computeBoundsNode f x y (qfloor (w * r)) h ++
           computeBoundsNode s (x + qfloor (w * r)) y (w - qfloor (w * r)) h
       | .horizontal =>
         computeBoundsNode f x y w (qfloor (h * r)) ++
           computeBoundsNode s x (y + qfloor (h * r)) w (h - qfloor (h * r)))

/-- `computeBounds(node, x, y, width, height, map)`: `if (!node) return` then
the non-null case. -/
def computeBounds : Option LayoutNode → ℚ → ℚ → ℚ → ℚ → List (ℕ × Bounds)
  | none, _, _, _, _ => []
  | some n, x, y, w, h => computeBoundsNode n x y w h

/-- `Map.get` over the list of `set` calls: a later `set` for the same key
overrides an earlier one. -/
def mapGet (l : List (ℕ × Bounds)) (i : ℕ) : Option Bounds :=
  match l with
  | [] => none
  | (k, b) :: rest =>
    match mapGet rest i with
    | some b2 => some b2
    | none => if k = i then some b else none

/-- `findDeepestNodeAtPoint` on a non-null node.  The containment test
`px < x || px > x + width || py < y || py > y + height` is evaluated
before the node's type, so every rectangle is closed on all four edges. -/
def findDeepestNode : LayoutNode → ℚ → ℚ → ℚ → ℚ → ℚ → ℚ → Option LayoutNode
  | n, x, y, w, h, px, py =>
    if px < x ∨ x + w < px ∨ py < y ∨ y + h < py then none
    else
      match n with
      | .leaf i win => some (.leaf i win)
      | .split _ .vertical r f s =>
        (match findDeepestNode f x y (qfloor (w * r)) h px py with
         | some m => some m
         | none =>
           findDeepestNode s (x + qfloor (w * r)) y (w - qfloor (w * r)) h px py)
      | .split _ .horizontal r f s =>
        (match findDeepestNode f x y w (qfloor (h * r)) px py with
         | some m => some m
         | none =>
           findDeepestNode s x (y + qfloor (h * r)) w (h - qfloor (h * r)) px py)

/-- `findDeepestNodeAtPoint`: `if (!node) return null` then the non-null case. -/
def findDeepestNodeAtPoint : Option LayoutNode → ℚ → ℚ → ℚ → ℚ → ℚ → ℚ → Option LayoutNode
  | none, _, _, _, _, _, _ => none
  | some n, x, y, w, h, px, py => findDeepestNode n x y w h px py

/-- The `map` built at the start of `hitTestForPreview`:
`if (rootNode) computeBounds(rootNode, 0, 0, viewport.width, viewport.height, map)`. -/
def boundsMapOf (root : Option LayoutNode) (vw vh : ℚ) : List (ℕ × Bounds) :=
  computeBounds root 0 0 vw vh

/-- The `targetNode` of `hitTestForPreview`:
`rootNode ? findDeepestNodeAtPoint(rootNode, 0, 0, vw, vh, px, py) : null`. -/
def targetNodeOf (root : Option LayoutNode) (vw vh px py : ℚ) : Option LayoutNode :=
  findDeepestNodeAtPoint root 0 0 vw vh px py

/-- `hitTestForPreview(px, py)` with the component state (`rootNode`,
`viewport`) passed explicitly.  `SNAP_DISTANCE = 50`.  The source looks
the hit node's bounds up with `map.get(targetNode.id)!`; the (unreachable)
missing-key case is modelled as `none`. -/
def hitTestForPreview (root : Option LayoutNode) (vw vh px py : ℚ) : Option SnapPreview :=
  match targetNodeOf root vw vh px py with
  | some tn =>
    (match mapGet (boundsMapOf root vw vh) (nodeId tn) with
     | none => none
     | some b =>
       let distLeft := px - b.x
       let distRight := b.x + b.width - px
       let distTop := py - b.y
       let distBottom := b.y + b.height - py
       let minD := min (min distLeft distRight) (min distTop distBottom)
       if 50 < minD then none
       else if minD = distLeft then
         some ⟨b.x, b.y, jround (b.width / 2), b.height, some (nodeId tn), Side.left⟩
       else if minD = distRight then
         some ⟨b.x + jround (b.width / 2), b.y, jround (b.width / 2), b.height,
           some (nodeId tn), Side.right⟩
       else if minD = distTop then
         some ⟨b.x, b.y, b.width, jround (b.height / 2), some (nodeId tn), Side.top⟩
       else
         some ⟨b.x, b.y + jround (b.height / 2), b.width, jround (b.height / 2),
           some (nodeId tn), Side.bottom⟩)
  | none =>
    if px ≤ 50 then some ⟨0, 0, jround (vw / 2), vh, none, Side.left⟩
    else if vw - 50 ≤ px then some ⟨jround (vw / 2), 0, jround (vw / 2), vh, none, Side.right⟩
    else if py ≤ 50 then some ⟨0, 0, vw, jround (vh / 2), none, Side.top⟩
    else if vh - 50 ≤ py then some ⟨0, jround (vh / 2), vw, jround (vh / 2), none, Side.bottom⟩
    else none

/-- The `replaceNode` closure inside `insertIntoLayout`, with its captured
`windowId`, `side` and the id counter made explicit.  Matching on the id
is tested before the node's type, exactly as in the source; an untouched
subtree is returned as-is (`if (replacedFirst === node.first && ...)
return node` is the identity here). -/
def replaceNode (w : ℤ) (side : Side) (tid : ℕ) : LayoutNode → ℕ → LayoutNode × ℕ
  | .leaf i win, g =>
    if i = tid then
      match win with
      | none => (.leaf i (some w), g)
      | some v =>
        (.split (g + 1) (sideOrientn side) (1/2)
          (if newFirstIsWindow side then .leaf g (some w) else .leaf i (some v))
          (if newFirstIsWindow side then .leaf i (some v) else .leaf g (some w)), g + 2)
    else (.leaf i win, g)
  | .split i o r f s, g =>
    if i = tid then
      (.split (g + 1) (sideOrientn side) (1/2)
        (if newFirstIsWindow side then .leaf g (some w) else .split i o r f s)
        (if newFirstIsWindow side then .split i o r f s else .leaf g (some w)), g + 2)
    else
      let p := replaceNode w side tid f g
      let q := replaceNode w side tid s p.2
      (.split i o r p.1 q.1, q.2)

/-- `insertIntoLayout(windowId, targetNodeId, side)` acting on the previous
root.  `!prev`: build a split of a fresh empty leaf (`defaultLeaf`) and a
fresh leaf holding the window.  `targetNodeId == null`: build a split of
the old root and a fresh leaf holding the window.  Otherwise run
`replaceNode` (whose result is never null, so `newRoot ?? prev` is
`newRoot`).  Ratio is fixed at `0.5`; id-counter increments follow the
source's `makeId` call order. -/
def insertIntoLayout (w : ℤ) (targetNodeId : Option ℕ) (side : Side)
    (prev : Option LayoutNode) (g : ℕ) : Option LayoutNode × ℕ :=
  match prev with
  | none =>
    (some (.split (g + 2) (sideOrientn side) (1/2)
      (if newFirstIsWindow side then .leaf (g + 1) (some w) else .leaf g none)
      (if newFirstIsWindow side then .leaf g none else .leaf (g + 1) (some w))), g + 3)
  | some t =>
    match targetNodeId with
    | none =>
      (some (.split (g + 1) (sideOrientn side) (1/2)
        (if newFirstIsWindow side then .leaf g (some w) else t)
        (if newFirstIsWindow side then t else .leaf g (some w))), g + 2)
    | some tid =>
      let p := replaceNode w side tid t g
      (some p.1, p.2)

/-- The `remove` closure inside `removeWindowFromLayout`, on a non-null
node: a leaf holding the window becomes `null`, any other leaf survives,
and a split collapses to its surviving child (or to `null`) when a child
was removed. -/
def removeNode (w : ℤ) : LayoutNode → Option LayoutNode
  | .leaf i win => if win = some w then none else some (.leaf i win)
  | .split i o r f s =>
    match removeNode w f, removeNode w s with
    | none, none => none
    | none, some s2 => some s2
    | some f2, none => some f2
    | some f2, some s2 => some (.split i o r f2 s2)

/-- `removeWindowFromLayout(windowId)` acting on the previous root:
`setRootNode(prev => remove(prev))`. -/
def removeWindowFromLayout (w : ℤ) (prev : Option LayoutNode) : Option LayoutNode :=
  match prev with
  | none => none
  | some n => removeNode w n

/-- `true` when some leaf of the node holds window `w`. -/
def occupiesNode : LayoutNode → ℤ → Bool
  | .leaf _ win, w => win = some w
  | .split _ _ _ f s, w => occupiesNode f w || occupiesNode s w

def occupiesOpt : Option LayoutNode → ℤ → Bool
  | none, _ => false
  | some n, w => occupiesNode n w

/-- `true` when some unoccupied leaf of the node has id `tid`. -/
def hasEmptyLeafId : LayoutNode → ℕ → Bool
  | .leaf i win, tid => i = tid && win = none
  | .split _ _ _ f s, tid => hasEmptyLeafId f tid || hasEmptyLeafId s tid

/-- `true` when `m` occurs as a node (the root or a descendant) of `t`. -/
def containsNode : LayoutNode → LayoutNode → Bool
  | .leaf i win, m => LayoutNode.leaf i win = m
  | .split i o r f s, m =>
    LayoutNode.split i o r f s = m || containsNode f m || containsNode s m

/-- How many nodes of `t` carry id `tid`. -/
def idCount : LayoutNode → ℕ → ℕ
  | .leaf i _, tid => if i = tid then 1 else 0
  | .split i _ _ f s, tid =>
    (if i = tid then 1 else 0) + idCount f tid + idCount s tid

/-- Specification-side rewriting: replace every node of `t` whose id is
`tid` by `repl`, without descending into a replaced node. -/
def replaceById (tid : ℕ) (repl : LayoutNode) : LayoutNode → LayoutNode
  | .leaf i win => if i = tid then repl else .leaf i win
  | .split i o r f s =>
    if i = tid then repl
    else .split i o r (replaceById tid repl f) (replaceById tid repl s)

/-- Erase all node ids (set them to `0`): trees equal after `eraseIds` are
structurally equivalent ignoring generated ids. -/
def eraseIds : LayoutNode → LayoutNode
  | .leaf _ win => .leaf 0 win
  | .split _ o r f s => .split 0 o r (eraseIds f) (eraseIds s)

/-- All split ratios of the node lie strictly between 0 and 1. -/
def ratiosOK : LayoutNode → Prop
  | .leaf _ _ => True
  | .split _ _ r f s => 0 < r ∧ r < 1 ∧ ratiosOK f ∧ ratiosOK s

def ratiosOKOpt : Option LayoutNode → Prop
  | none => True
  | some n => ratiosOK n

/-- One engine operation, as dispatched by the pointer-event handlers. -/
inductive Op where
  | insert (w : ℤ) (targetNodeId : Option ℕ) (side : Side)
  | remove (w : ℤ)
deriving DecidableEq, Repr

def applyOp : Option LayoutNode × ℕ → Op → Option LayoutNode × ℕ
  | (t, g), .insert w tgt side => insertIntoLayout w tgt side t g
  | (t, g), .remove w => (removeWindowFromLayout w t, g)

/-- Run a sequence of operations from the empty (`none`) root. -/
def runOps (ops : List Op) : Option LayoutNode × ℕ :=
  ops.foldl applyOp (none, 0)

/-- The window ids inserted by a sequence of operations. -/
def insertedWindows (ops : List Op) : List ℤ :=
  ops.filterMap (fun op =>
    match op with
    | .insert w _ _ => some w
    | .remove _ => none)

/-- Call `removeWindowFromLayout` once for each window id of the list. -/
def removeAll (ws : List ℤ) (t : Option LayoutNode) : Option LayoutNode :=
  ws.foldl (fun acc u => removeWindowFromLayout u acc) t

/-- What `replaceNode` puts in place of a matched node: an unoccupied leaf
becomes occupied in place; any other node is wrapped in a fresh ratio-0.5
split together with a fresh leaf holding the window, ordered by the side. -/
def replacementFor (w : ℤ) (side : Side) (g : ℕ) : LayoutNode → LayoutNode
  | .leaf i none => .leaf i (some w)
  | .leaf i (some v) =>
    .split (g + 1) (sideOrientn side) (1/2)
      (if newFirstIsWindow side then .leaf g (some w) else .leaf i (some v))
      (if newFirstIsWindow side then .leaf i (some v) else .leaf g (some w))
  | .split i o r f s =>
    .split (g + 1) (sideOrientn side) (1/2)
      (if newFirstIsWindow side then .leaf g (some w) else .split i o r f s)
      (if newFirstIsWindow side then .split i o r f s else .leaf g (some w))

/-- How many fresh ids `replaceNode` consumes at a matched node. -/
def genCost : LayoutNode → ℕ
  | .leaf _ none => 0
  | .leaf _ (some _) => 2
  | .split _ _ _ _ _ => 2

theorem removeNode_of_not_occupies (w : ℤ) :
    ∀ n : LayoutNode, occupiesNode n w = false → removeNode w n = some n := by
  intro n
  induction n with
  | leaf i win =>
    intro h
    simp only [occupiesNode, decide_eq_false_iff_not] at h
    simp [removeNode, h]
  | split i o r f s ihf ihs =>
    intro h
    simp only [occupiesNode, Bool.or_eq_false_iff] at h
    rw [removeNode, ihf h.1, ihs h.2]

theorem occupies_of_occupies_removeNode (w v : ℤ) :
    ∀ (n m : LayoutNode), removeNode w n = some m → occupiesNode m v = true →
      occupiesNode n v = true ∧ v ≠ w := by
  intro n
  induction n with
  | leaf i win =>
    intro m hrm hocc
    by_cases hw : win = some w
    · simp [removeNode, hw] at hrm
    · simp only [removeNode, if_neg hw] at hrm
      cases hrm
      simp only [occupiesNode, decide_eq_true_eq] at hocc
      subst hocc
      refine ⟨by simp [occupiesNode], ?_⟩
      intro hvw
      exact hw (by rw [hvw])
  | split i o r f s ihf ihs =>
    intro m hrm hocc
    rw [removeNode] at hrm
    cases hf : removeNode w f with
    | none =>
      cases hs : removeNode w s with
      | none => rw [hf, hs] at hrm; cases hrm
      | some s2 =>
        rw [hf, hs] at hrm
        cases hrm
        obtain ⟨h1, h2⟩ := ihs m hs hocc
        exact ⟨by simp [occupiesNode, h1], h2⟩
    | some f2 =>
      cases hs : removeNode w s with
      | none =>
        rw [hf, hs] at hrm
        cases hrm
        obtain ⟨h1, h2⟩ := ihf m hf hocc
        exact ⟨by simp [occupiesNode, h1], h2⟩
      | some s2 =>
        rw [hf, hs] at hrm
        cases hrm
        simp only [occupiesNode, Bool.or_eq_true] at hocc
        rcases hocc with hocc | hocc
        · obtain ⟨h1, h2⟩ := ihf f2 hf hocc
          exact ⟨by simp [occupiesNode, h1], h2⟩
        · obtain ⟨h1, h2⟩ := ihs s2 hs hocc
          exact ⟨by simp [occupiesNode, h1], h2⟩

theorem occupies_of_occupies_removeOpt (w v : ℤ) (t : Option LayoutNode)
    (h : occupiesOpt (removeWindowFromLayout w t) v = true) :
    occupiesOpt t v = true ∧ v ≠ w := by
  cases t with
  | none => simp [removeWindowFromLayout, occupiesOpt] at h
  | some n =>
    rw [removeWindowFromLayout] at h
    cases hr : removeNode w n with
    | none => rw [hr] at h; simp [occupiesOpt] at h
    | some m =>
      rw [hr] at h
      exact occupies_of_occupies_removeNode w v n m hr h

theorem occupies_of_occupies_removeAll :
    ∀ (ws : List ℤ) (t : Option LayoutNode) (v : ℤ),
      occupiesOpt (removeAll ws t) v = true → occupiesOpt t v = true ∧ v ∉ ws := by
  intro ws
  induction ws with
  | nil =>
    intro t v h
    exact ⟨by simpa [removeAll] using h, by simp⟩
  | cons u us ih =>
    intro t v h
    rw [removeAll, List.foldl_cons] at h
    obtain ⟨h1, h2⟩ := ih (removeWindowFromLayout u t) v h
    obtain ⟨h3, h4⟩ := occupies_of_occupies_removeOpt u v t h1
    refine ⟨h3, ?_⟩
    simp only [List.mem_cons, not_or]
    exact ⟨h4, h2⟩

theorem occupies_of_occupies_replaceNode (w : ℤ) (side : Side) (tid : ℕ) (v : ℤ) :
    ∀ (n : LayoutNode) (g : ℕ),
      occupiesNode (replaceNode w side tid n g).1 v = true →
        v = w ∨ occupiesNode n v = true := by
  intro n
  induction n with
  | leaf i win =>
    intro g h
    by_cases hit : i = tid
    · cases win with
      | none =>
        simp only [replaceNode, if_pos hit, occupiesNode, decide_eq_true_eq] at h
        left
        exact (Option.some_inj.mp h).symm
      | some u =>
        cases hnf : newFirstIsWindow side with
        | true =>
          simp only [replaceNode, if_pos hit, hnf, if_pos rfl, occupiesNode,
            Bool.or_eq_true, decide_eq_true_eq] at h
          rcases h with h | h
          · left; exact (Option.some_inj.mp h).symm
          · right; simp [occupiesNode, h]
        | false =>
          simp only [replaceNode, if_pos hit, hnf, Bool.false_eq_true, if_false,
            occupiesNode, Bool.or_eq_true, decide_eq_true_eq] at h
          rcases h with h | h
          · right; simp [occupiesNode, h]
          · left; exact (Option.some_inj.mp h).symm
    · simp only [replaceNode, if_neg hit] at h
      right
      exact h
  | split i o r f s ihf ihs =>
    intro g h
    by_cases hit : i = tid
    · cases hnf : newFirstIsWindow side with
      | true =>
        simp only [replaceNode, if_pos hit, hnf, if_pos rfl, occupiesNode,
          Bool.or_eq_true, decide_eq_true_eq] at h
        rcases h with h | h
        · left; exact (Option.some_inj.mp h).symm
        · right; simp only [occupiesNode, Bool.or_eq_true]; exact h
      | false =>
        simp only [replaceNode, if_pos hit, hnf, Bool.false_eq_true, if_false,
          occupiesNode, Bool.or_eq_true, decide_eq_true_eq] at h
        rcases h with h | h
        · right; simp only [occupiesNode, Bool.or_eq_true]; exact h
        · left; exact (Option.some_inj.mp h).symm
    · simp only [replaceNode, if_neg hit, occupiesNode, Bool.or_eq_true] at h
      rcases h with h | h
      · rcases ihf g h with h2 | h2
        · left; exact h2
        · right; simp [occupiesNode, h2]
      · rcases ihs (replaceNode w side tid f g).2 h with h2 | h2
        · left; exact h2
        · right; simp [occupiesNode, h2]

theorem occupies_of_occupies_insert (w : ℤ) (tgt : Option ℕ) (side : Side)
    (prev : Option LayoutNode) (g : ℕ) (v : ℤ)
    (h : occupiesOpt (insertIntoLayout w tgt side prev g).1 v = true) :
    v = w ∨ occupiesOpt prev v = true := by
  cases prev with
  | none =>
    cases hnf : newFirstIsWindow side with
    | true =>
      simp only [insertIntoLayout, hnf, if_pos rfl, occupiesOpt, occupiesNode,
        Bool.or_eq_true, decide_eq_true_eq] at h
      rcases h with h | h
      · left; exact (Option.some_inj.mp h).symm
      · cases h
    | false =>
      simp only [insertIntoLayout, hnf, Bool.false_eq_true, if_false, occupiesOpt,
        occupiesNode, Bool.or_eq_true, decide_eq_true_eq] at h
      rcases h with h | h
      · cases h
      · left; exact (Option.some_inj.mp h).symm
  | some t =>
    cases tgt with
    | none =>
      cases hnf : newFirstIsWindow side with
      | true =>
        simp only [insertIntoLayout, hnf, if_pos rfl, occupiesOpt, occupiesNode,
          Bool.or_eq_true, decide_eq_true_eq] at h
        rcases h with h | h
        · left; exact (Option.some_inj.mp h).symm
        · right; exact h
      | false =>
        simp only [insertIntoLayout, hnf, Bool.false_eq_true, if_false, occupiesOpt,
          occupiesNode, Bool.or_eq_true, decide_eq_true_eq] at h
        rcases h with h | h
        · right; exact h
        · left; exact (Option.some_inj.mp h).symm
    | some tid =>
      simp only [insertIntoLayout, occupiesOpt] at h
      exact occupies_of_occupies_replaceNode w side tid v t g h

theorem occupies_foldl_applyOp :
    ∀ (ops : List Op) (st : Option LayoutNode × ℕ) (v : ℤ),
      occupiesOpt (ops.foldl applyOp st).1 v = true →
      occupiesOpt st.1 v = true ∨ v ∈ insertedWindows ops := by
  intro ops
  induction ops with
  | nil =>
    intro st v h
    left
    simpa using h
  | cons op rest ih =>
    intro st v h
    rw [List.foldl_cons] at h
    rcases ih (applyOp st op) v h with h1 | h1
    · cases op with
      | insert w tgt side =>
        obtain ⟨t, g⟩ := st
        rcases occupies_of_occupies_insert w tgt side t g v h1 with h2 | h2
        · right
          simp [insertedWindows, List.filterMap_cons, h2]
        · left; exact h2
      | remove w =>
        obtain ⟨t, g⟩ := st
        left
        exact (occupies_of_occupies_removeOpt w v t h1).1
    · right
      cases op with
      | insert w tgt side => simp [insertedWindows, List.filterMap_cons] at h1 ⊢; right; exact h1
      | remove w => simpa [insertedWindows, List.filterMap_cons] using h1

theorem occupies_runOps (ops : List Op) (v : ℤ)
    (h : occupiesOpt (runOps ops).1 v = true) : v ∈ insertedWindows ops := by
  rcases occupies_foldl_applyOp ops (none, 0) v h with h1 | h1
  · simp [occupiesOpt] at h1
  · exact h1

theorem ratiosOK_leaf_iff (i : ℕ) (win : Option ℤ) :
    ratiosOK (.leaf i win) ↔ True := Iff.rfl

theorem ratiosOK_split_iff (i : ℕ) (o : Orientn) (r : ℚ) (f s : LayoutNode) :
    ratiosOK (.split i o r f s) ↔ 0 < r ∧ r < 1 ∧ ratiosOK f ∧ ratiosOK s := Iff.rfl

theorem ratiosOK_half_split (i : ℕ) (o : Orientn) (a b : LayoutNode)
    (ha : ratiosOK a) (hb : ratiosOK b) :
    ratiosOK (.split i o (1/2) a b) :=
  (ratiosOK_split_iff i o (1/2) a b).mpr ⟨by norm_num, by norm_num, ha, hb⟩

theorem ratiosOK_replaceNode (w : ℤ) (side : Side) (tid : ℕ) :
    ∀ (n : LayoutNode) (g : ℕ), ratiosOK n → ratiosOK (replaceNode w side tid n g).1 := by
  intro n
  induction n with
  | leaf i win =>
    intro g hn
    by_cases hit : i = tid
    · cases win with
      | none =>
        simp only [replaceNode, if_pos hit]
        exact (ratiosOK_leaf_iff i (some w)).mpr trivial
      | some u =>
        simp only [replaceNode, if_pos hit]
        refine ratiosOK_half_split _ _ _ _ ?_ ?_ <;>
          · cases hnf : newFirstIsWindow side <;> simp [hnf, ratiosOK_leaf_iff]
    · simp only [replaceNode, if_neg hit]
      exact hn
  | split i o r f s ihf ihs =>
    intro g hn
    have hsplit : ratiosOK (LayoutNode.split i o r f s) := hn
    rw [ratiosOK_split_iff] at hn
    obtain ⟨h1, h2, h3, h4⟩ := hn
    by_cases hit : i = tid
    · simp only [replaceNode, if_pos hit]
      refine ratiosOK_half_split _ _ _ _ ?_ ?_ <;>
        · cases hnf : newFirstIsWindow side <;>
            simp [hnf, ratiosOK_leaf_iff, hsplit]
    · simp only [replaceNode, if_neg hit]
      exact (ratiosOK_split_iff _ _ _ _ _).mpr
        ⟨h1, h2, ihf g h3, ihs (replaceNode w side tid f g).2 h4⟩

theorem ratiosOK_insert (w : ℤ) (tgt : Option ℕ) (side : Side)
    (prev : Option LayoutNode) (g : ℕ) (h : ratiosOKOpt prev) :
    ratiosOKOpt (insertIntoLayout w tgt side prev g).1 := by
  cases prev with
  | none =>
    show ratiosOK _
    refine ratiosOK_half_split _ _ _ _ ?_ ?_ <;>
      · cases hnf : newFirstIsWindow side <;> simp [hnf, ratiosOK_leaf_iff]
  | some t =>
    cases tgt with
    | none =>
      show ratiosOK _
      have ht : ratiosOK t := h
      refine ratiosOK_half_split _ _ _ _ ?_ ?_ <;>
        · cases hnf : newFirstIsWindow side <;> simp [hnf, ratiosOK_leaf_iff, ht]
    | some tid =>
      show ratiosOK _
      exact ratiosOK_replaceNode w side tid t g h

theorem ratiosOK_removeNode (w : ℤ) :
    ∀ (n m : LayoutNode), removeNode w n = some m → ratiosOK n → ratiosOK m := by
  intro n
  induction n with
  | leaf i win =>
    intro m hrm _
    by_cases hw : win = some w
    · simp [removeNode, hw] at hrm
    · simp only [removeNode, if_neg hw] at hrm
      cases hrm
      trivial
  | split i o r f s ihf ihs =>
    intro m hrm hn
    rw [ratiosOK_split_iff] at hn
    obtain ⟨h1, h2, h3, h4⟩ := hn
    rw [removeNode] at hrm
    cases hf : removeNode w f with
    | none =>
      cases hs : removeNode w s with
      | none => rw [hf, hs] at hrm; cases hrm
      | some s2 =>
        rw [hf, hs] at hrm
        cases hrm
        exact ihs m hs h4
    | some f2 =>
      cases hs : removeNode w s with
      | none =>
        rw [hf, hs] at hrm
        cases hrm
        exact ihf m hf h3
      | some s2 =>
        rw [hf, hs] at hrm
        cases hrm
        exact (ratiosOK_split_iff _ _ _ _ _).mpr ⟨h1, h2, ihf f2 hf h3, ihs s2 hs h4⟩

theorem ratiosOK_removeOpt (w : ℤ) (t : Option LayoutNode) (h : ratiosOKOpt t) :
    ratiosOKOpt (removeWindowFromLayout w t) := by
  cases t with
  | none => trivial
  | some n =>
    rw [removeWindowFromLayout]
    cases hr : removeNode w n with
    | none => trivial
    | some m => exact ratiosOK_removeNode w n m hr h

theorem ratiosOK_foldl_applyOp :
    ∀ (ops : List Op) (st : Option LayoutNode × ℕ),
      ratiosOKOpt st.1 → ratiosOKOpt (ops.foldl applyOp st).1 := by
  intro ops
  induction ops with
  | nil => intro st h; simpa using h
  | cons op rest ih =>
    intro st h
    rw [List.foldl_cons]
    apply ih
    obtain ⟨t, g⟩ := st
    cases op with
    | insert w tgt side => exact ratiosOK_insert w tgt side t g h
    | remove w => exact ratiosOK_removeOpt w t h

theorem removeNode_replaceNode (w : ℤ) (side : Side) (tid : ℕ) :
    ∀ (n : LayoutNode) (g : ℕ),
      occupiesNode n w = false → hasEmptyLeafId n tid = false →
      removeNode w (replaceNode w side tid n g).1 = some n := by
  intro n
  induction n with
  | leaf i win =>
    intro g hocc hemp
    by_cases hit : i = tid
    · cases win with
      | none =>
        exfalso
        simp [hasEmptyLeafId, hit] at hemp
      | some u =>
        have huw : ¬ ((some u : Option ℤ) = some w) := by
          simpa [occupiesNode] using hocc
        cases hnf : newFirstIsWindow side <;>
          simp [replaceNode, hit, hnf, removeNode, huw]
    · have hw : ¬ (win = some w) := by simpa [occupiesNode] using hocc
      simp [replaceNode, hit, removeNode, hw]
  | split i o r f s ihf ihs =>
    intro g hocc hemp
    simp only [occupiesNode, Bool.or_eq_false_iff] at hocc
    simp only [hasEmptyLeafId, Bool.or_eq_false_iff] at hemp
    by_cases hit : i = tid
    · subst hit
      have hn : removeNode w (LayoutNode.split i o r f s) = some (.split i o r f s) :=
        removeNode_of_not_occupies w _ (by simp [occupiesNode, hocc.1, hocc.2])
      have hleaf : removeNode w (.leaf g (some w)) = none := by simp [removeNode]
      cases hnf : newFirstIsWindow side <;>
        · simp only [replaceNode, if_pos rfl, hnf, Bool.false_eq_true, if_false, if_true]
          rw [removeNode, hn, hleaf]
    · have h1 := ihf g hocc.1 hemp.1
      have h2 := ihs (replaceNode w side tid f g).2 hocc.2 hemp.2
      simp [replaceNode, hit, removeNode, h1, h2]

theorem one_le_idCount_of_contains :
    ∀ (t n : LayoutNode), containsNode t n = true → 1 ≤ idCount t (nodeId n) := by
  intro t
  induction t with
  | leaf i win =>
    intro n h
    simp only [containsNode, decide_eq_true_eq] at h
    subst h
    simp [idCount, nodeId]
  | split i o r f s ihf ihs =>
    intro n h
    simp only [containsNode, Bool.or_eq_true, decide_eq_true_eq] at h
    rcases h with (he | hf) | hs
    · subst he
      simp [idCount, nodeId]
      omega
    · have := ihf n hf
      by_cases hid : i = nodeId n <;> simp [idCount, hid] <;> omega
    · have := ihs n hs
      by_cases hid : i = nodeId n <;> simp [idCount, hid] <;> omega

theorem replaceNode_of_idCount_zero (w : ℤ) (side : Side) (tid : ℕ) :
    ∀ (t : LayoutNode) (g : ℕ), idCount t tid = 0 → replaceNode w side tid t g = (t, g) := by
  intro t
  induction t with
  | leaf i win =>
    intro g h
    have hit : ¬ (i = tid) := by
      intro he
      simp [idCount, he] at h
    simp [replaceNode, hit]
  | split i o r f s ihf ihs =>
    intro g h
    have hit : ¬ (i = tid) := by
      intro he
      simp [idCount, he] at h
    simp only [idCount, if_neg hit, Nat.zero_add] at h
    have hf : idCount f tid = 0 := by omega
    have hs : idCount s tid = 0 := by omega
    simp [replaceNode, hit, ihf g hf, ihs g hs]

theorem replaceById_of_idCount_zero (tid : ℕ) (repl : LayoutNode) :
    ∀ t : LayoutNode, idCount t tid = 0 → replaceById tid repl t = t := by
  intro t
  induction t with
  | leaf i win =>
    intro h
    have hit : ¬ (i = tid) := by
      intro he
      simp [idCount, he] at h
    simp [replaceById, hit]
  | split i o r f s ihf ihs =>
    intro h
    have hit : ¬ (i = tid) := by
      intro he
      simp [idCount, he] at h
    simp only [idCount, if_neg hit, Nat.zero_add] at h
    have hf : idCount f tid = 0 := by omega
    have hs : idCount s tid = 0 := by omega
    simp [replaceById, hit, ihf hf, ihs hs]

theorem replaceNode_eq_replaceById :
    ∀ (t n : LayoutNode) (w : ℤ) (side : Side) (g : ℕ),
      containsNode t n = true → idCount t (nodeId n) = 1 →
      replaceNode w side (nodeId n) t g =
        (replaceById (nodeId n) (replacementFor w side g n) t, g + genCost n) := by
  intro t
  induction t with
  | leaf i win =>
    intro n w side g hc h1
    simp only [containsNode, decide_eq_true_eq] at hc
    subst hc
    cases win with
    | none => simp [replaceNode, nodeId, replaceById, replacementFor, genCost]
    | some v => simp [replaceNode, nodeId, replaceById, replacementFor, genCost]
  | split i o r f s ihf ihs =>
    intro n w side g hc h1
    simp only [containsNode, Bool.or_eq_true, decide_eq_true_eq] at hc
    by_cases hit : i = nodeId n
    · rcases hc with (he | hf2) | hs2
      · subst he
        simp [replaceNode, nodeId, replaceById, replacementFor, genCost]
      · exfalso
        have hcf := one_le_idCount_of_contains f n hf2
        simp [idCount, hit] at h1
        omega
      · exfalso
        have hcs := one_le_idCount_of_contains s n hs2
        simp [idCount, hit] at h1
        omega
    · rcases hc with (he | hf2) | hs2
      · exfalso
        apply hit
        rw [← he]
        rfl
      · have hcf := one_le_idCount_of_contains f n hf2
        simp only [idCount, if_neg hit, Nat.zero_add] at h1
        have hzf : idCount f (nodeId n) = 1 := by omega
        have hzs : idCount s (nodeId n) = 0 := by omega
        have e1 := ihf n w side g hf2 hzf
        have e2 := replaceNode_of_idCount_zero w side (nodeId n) s (g + genCost n) hzs
        have e3 := replaceById_of_idCount_zero (nodeId n) (replacementFor w side g n) s hzs
        simp [replaceNode, hit, e1, e2, replaceById, e3]
      · have hcs := one_le_idCount_of_contains s n hs2
        simp only [idCount, if_neg hit, Nat.zero_add] at h1
        have hzf : idCount f (nodeId n) = 0 := by omega
        have hzs : idCount s (nodeId n) = 1 := by omega
        have e1 := replaceNode_of_idCount_zero w side (nodeId n) f g hzf
        have e2 := ihs n w side g hs2 hzs
        have e3 := replaceById_of_idCount_zero (nodeId n) (replacementFor w side g n) f hzf
        simp [replaceNode, hit, e1, e2, replaceById, e3]

theorem qfloor_nonneg {q : ℚ} (h : 0 ≤ q) : 0 ≤ qfloor q := by
  unfold qfloor
  exact_mod_cast Int.floor_nonneg.mpr h

theorem qfloor_le (q : ℚ) : qfloor q ≤ q := Int.floor_le q

theorem findDeepestNode_eq (n : LayoutNode) (x y w h px py : ℚ) :
    findDeepestNode n x y w h px py =
      if px < x ∨ x + w < px ∨ py < y ∨ y + h < py then none
      else
        match n with
        | .leaf i win => some (.leaf i win)
        | .split _ .vertical r f s =>
          (match findDeepestNode f x y (qfloor (w * r)) h px py with
           | some m => some m
           | none =>
             findDeepestNode s (x + qfloor (w * r)) y (w - qfloor (w * r)) h px py)
        | .split _ .horizontal r f s =>
          (match findDeepestNode f x y w (qfloor (h * r)) px py with
           | some m => some m
           | none =>
             findDeepestNode s x (y + qfloor (h * r)) w (h - qfloor (h * r)) px py) := by
  cases n with
  | leaf i win => rfl
  | split i o r f s => cases o <;> rfl

theorem findDeepestNode_out (n : LayoutNode) (x y w h px py : ℚ)
    (hc : px < x ∨ x + w < px ∨ py < y ∨ y + h < py) :
    findDeepestNode n x y w h px py = none := by
  rw [findDeepestNode_eq, if_pos hc]

theorem findDeepestNode_leaf_in (i : ℕ) (win : Option ℤ) (x y w h px py : ℚ)
    (hc : ¬ (px < x ∨ x + w < px ∨ py < y ∨ y + h < py)) :
    findDeepestNode (.leaf i win) x y w h px py = some (.leaf i win) := by
  rw [findDeepestNode_eq, if_neg hc]

theorem findDeepestNode_vsplit_in (i : ℕ) (r : ℚ) (f s : LayoutNode) (x y w h px py : ℚ)
    (hc : ¬ (px < x ∨ x + w < px ∨ py < y ∨ y + h < py)) :
    findDeepestNode (.split i .vertical r f s) x y w h px py =
      (match findDeepestNode f x y (qfloor (w * r)) h px py with
       | some m => some m
       | none =>
         findDeepestNode s (x + qfloor (w * r)) y (w - qfloor (w * r)) h px py) := by
  rw [findDeepestNode_eq, if_neg hc]

theorem findDeepestNode_hsplit_in (i : ℕ) (r : ℚ) (f s : LayoutNode) (x y w h px py : ℚ)
    (hc : ¬ (px < x ∨ x + w < px ∨ py < y ∨ y + h < py)) :
    findDeepestNode (.split i .horizontal r f s) x y w h px py =
      (match findDeepestNode f x y w (qfloor (h * r)) px py with
       | some m => some m
       | none =>
         findDeepestNode s x (y + qfloor (h * r)) w (h - qfloor (h * r)) px py) := by
  rw [findDeepestNode_eq, if_neg hc]

theorem findDeepestNode_isSome :
    ∀ (n : LayoutNode) (x y w h px py : ℚ),
      x ≤ px → px ≤ x + w → y ≤ py → py ≤ y + h →
      ∃ m, findDeepestNode n x y w h px py = some m ∧ isLeafNode m = true := by
  intro n
  induction n with
  | leaf i win =>
    intro x y w h px py h1 h2 h3 h4
    refine ⟨.leaf i win, ?_, rfl⟩
    apply findDeepestNode_leaf_in
    push_neg
    exact ⟨h1, h2, h3, h4⟩
  | split i o r f s ihf ihs =>
    intro x y w h px py h1 h2 h3 h4
    have hnc : ¬ (px < x ∨ x + w < px ∨ py < y ∨ y + h < py) := by
      push_neg
      exact ⟨h1, h2, h3, h4⟩
    cases o with
    | vertical =>
      by_cases hin : px ≤ x + qfloor (w * r)
      · obtain ⟨m, hm, hl⟩ := ihf x y (qfloor (w * r)) h px py h1 hin h3 h4
        refine ⟨m, ?_, hl⟩
        rw [findDeepestNode_vsplit_in i r f s x y w h px py hnc, hm]
      · push_neg at hin
        have hnone : findDeepestNode f x y (qfloor (w * r)) h px py = none :=
          findDeepestNode_out f x y (qfloor (w * r)) h px py (Or.inr (Or.inl hin))
        obtain ⟨m, hm, hl⟩ := ihs (x + qfloor (w * r)) y (w - qfloor (w * r)) h px py
          (le_of_lt hin) (by linarith) h3 h4
        refine ⟨m, ?_, hl⟩
        rw [findDeepestNode_vsplit_in i r f s x y w h px py hnc, hnone, hm]
    | horizontal =>
      by_cases hin : py ≤ y + qfloor (h * r)
      · obtain ⟨m, hm, hl⟩ := ihf x y w (qfloor (h * r)) px py h1 h2 h3 hin
        refine ⟨m, ?_, hl⟩
        rw [findDeepestNode_hsplit_in i r f s x y w h px py hnc, hm]
      · push_neg at hin
        have hnone : findDeepestNode f x y w (qfloor (h * r)) px py = none :=
          findDeepestNode_out f x y w (qfloor (h * r)) px py
            (Or.inr (Or.inr (Or.inr hin)))
        obtain ⟨m, hm, hl⟩ := ihs x (y + qfloor (h * r)) w (h - qfloor (h * r)) px py
          h1 h2 (le_of_lt hin) (by linarith)
        refine ⟨m, ?_, hl⟩
        rw [findDeepestNode_hsplit_in i r f s x y w h px py hnc, hnone, hm]

/-- C8: `removeWindowFromLayout` deletes the leaf holding the given
occupant (a leaf holding `w` maps to `null`), and collapses in the one
structural bottom-up pass of `remove`: a split one of whose children was
deleted is replaced by its surviving child, a split with both children
deleted becomes `none`; and removing an occupant that appears in no leaf
of the tree returns the tree structurally unchanged. -/
theorem C8_remove_collapse_and_unknown_noop (w : ℤ) (t : Option LayoutNode) :
    (occupiesOpt t w = false → removeWindowFromLayout w t = t) ∧
    (∀ i, removeWindowFromLayout w (some (.leaf i (some w))) = none) ∧
    (∀ i o r f s, t = some (.split i o r f s) →
      (removeNode w f = none → removeNode w s = none →
        removeWindowFromLayout w t = none) ∧
      (∀ s2, removeNode w f = none → removeNode w s = some s2 →
        removeWindowFromLayout w t = some s2) ∧
      (∀ f2, removeNode w f = some f2 → removeNode w s = none →
        removeWindowFromLayout w t = some f2) ∧
      (∀ f2 s2, removeNode w f = some f2 → removeNode w s = some s2 →
        removeWindowFromLayout w t = some (.split i o r f2 s2))) := by
  refine ⟨?_, ?_, ?_⟩
  · intro h
    cases t with
    | none => rfl
    | some n =>
      rw [removeWindowFromLayout, removeNode_of_not_occupies w n h]
  · intro i
    simp [removeWindowFromLayout, removeNode]
  · intro i o r f s ht
    subst ht
    refine ⟨?_, ?_, ?_, ?_⟩
    · intro hf hs
      rw [removeWindowFromLayout, removeNode, hf, hs]
    · intro s2 hf hs
      rw [removeWindowFromLayout, removeNode, hf, hs]
    · intro f2 hf hs
      rw [removeWindowFromLayout, removeNode, hf, hs]
    · intro f2 s2 hf hs
      rw [removeWindowFromLayout, removeNode, hf, hs]

theorem C8_witness :
    removeWindowFromLayout 7 (some (.leaf 0 (some 5))) = some (.leaf 0 (some 5)) :=
  (C8_remove_collapse_and_unknown_noop 7 (some (.leaf 0 (some 5)))).1 (by decide)

/-- C9: every tree reachable from the empty (`none`) root by a sequence of
insert and remove operations has every split ratio strictly between 0 and
1.  (The other half of the claim, that every split has exactly two
non-null children, holds by construction: `LayoutNode`, mirroring the
TypeScript types, gives every split exactly two `LayoutNode` children,
and neither mutator ever produces anything else.) -/
theorem C9_reachable_ratios_in_open_unit (ops : List Op) :
    ratiosOKOpt (runOps ops).1 :=
  ratiosOK_foldl_applyOp ops (none, 0) trivial

/-- C1 counterexample: insert occupant 1 into the empty root, then remove
occupant 1 (the only occupant ever inserted).  The root is not `none`:
the unoccupied placeholder leaf created by the first insert survives
`remove`, which only deletes leaves whose `windowId` equals the removed
occupant. -/
theorem C1_cex_residual_empty_leaf :
    removeAll (insertedWindows [Op.insert 1 none Side.left])
      (runOps [Op.insert 1 none Side.left]).1 ≠ none := by
  decide

/-- C1 amended: for every tree reachable from the empty root, removing
(via `removeWindowFromLayout`, once per reference) every occupant that
was inserted yields a root in which no leaf holds an occupant; the root
is not necessarily `none` (a placeholder empty leaf can survive). -/
theorem C1_removeAll_inserted_leaves_unoccupied (ops : List Op) (v : ℤ) :
    occupiesOpt (removeAll (insertedWindows ops) (runOps ops).1) v = false := by
  cases hb : occupiesOpt (removeAll (insertedWindows ops) (runOps ops).1) v with
  | false => rfl
  | true =>
    exfalso
    obtain ⟨h1, h2⟩ :=
      occupies_of_occupies_removeAll (insertedWindows ops) (runOps ops).1 v hb
    exact h2 (occupies_runOps ops v h1)

/-- C2 counterexample: the claim quantifies over every tree "including the
none root".  From the `none` root, inserting occupant 1 (at the viewport
edge) and immediately removing it leaves the placeholder empty leaf
created by the insert, which is not structurally equivalent to the
pre-insert `none` root even after erasing all generated ids. -/
theorem C2_cex_none_root :
    (removeWindowFromLayout 1
        (insertIntoLayout 1 none Side.left (none : Option LayoutNode) 0).1).map eraseIds ≠
      (none : Option LayoutNode).map eraseIds := by
  decide

/-- C2 amended: for every non-`none` tree, every occupant not occupying
any leaf of the tree, and every target that is `none` or is not the id of
an unoccupied leaf of the tree (i.e. it names an occupied leaf, a split,
or nothing at all), insert of that occupant followed immediately by
remove of it returns exactly the pre-insert tree — equal even including
ids, hence structurally equivalent ignoring generated ids.  The two
excluded cases genuinely fail: from the `none` root a placeholder leaf
survives, and filling an existing unoccupied leaf mutates it in place so
the remove collapses that leaf's parent split away. -/
theorem C2_insert_then_remove_roundtrip (t : LayoutNode) (w : ℤ) (tgt : Option ℕ)
    (side : Side) (g : ℕ)
    (hocc : occupiesNode t w = false)
    (hemp : ∀ tid, tgt = some tid → hasEmptyLeafId t tid = false) :
    removeWindowFromLayout w (insertIntoLayout w tgt side (some t) g).1 = some t := by
  cases tgt with
  | none =>
    have ht := removeNode_of_not_occupies w t hocc
    have hleaf : removeNode w (.leaf g (some w)) = none := by simp [removeNode]
    cases hnf : newFirstIsWindow side <;>
      · simp only [insertIntoLayout, hnf, Bool.false_eq_true, if_false, if_true]
        rw [removeWindowFromLayout, removeNode, ht, hleaf]
  | some tid =>
    have h := removeNode_replaceNode w side tid t g hocc (hemp tid rfl)
    simpa [insertIntoLayout, removeWindowFromLayout] using h

theorem C2_witness :
    removeWindowFromLayout 9
      (insertIntoLayout 9 (some 1) Side.left (some (.leaf 1 (some 5))) 10).1 =
      some (.leaf 1 (some 5)) :=
  C2_insert_then_remove_roundtrip (.leaf 1 (some 5)) 9 (some 1) Side.left 10
    (by decide) (by intro tid htid; cases htid; decide)

/-- C3: for every split and every outer rectangle with non-negative
extents (integrality is not even needed) and ratio in (0,1),
`computeBounds` gives the first child `Math.floor(extent * ratio)` of the
split axis and the second child exactly the remainder, both children the
parent's full extent on the other axis; the two extents sum exactly to
the parent's, and the children's half-open intervals on the split axis
partition the parent's interval with no overlap and no gap. -/
theorem C3_computeBounds_split_partition (i : ℕ) (o : Orientn) (r : ℚ)
    (f s : LayoutNode) (x y w h : ℚ)
    (hr0 : 0 < r) (hr1 : r < 1) (hw : 0 ≤ w) (hh : 0 ≤ h) :
    (o = .vertical →
      computeBounds (some (.split i o r f s)) x y w h =
        (i, ⟨x, y, w, h⟩) ::
          (computeBoundsNode f x y (qfloor (w * r)) h ++
            computeBoundsNode s (x + qfloor (w * r)) y (w - qfloor (w * r)) h) ∧
      qfloor (w * r) + (w - qfloor (w * r)) = w ∧
      0 ≤ qfloor (w * r) ∧ qfloor (w * r) ≤ w ∧
      (∀ p : ℚ, (x ≤ p ∧ p < x + w) ↔
        ((x ≤ p ∧ p < x + qfloor (w * r)) ∨
          (x + qfloor (w * r) ≤ p ∧ p < x + w))) ∧
      (∀ p : ℚ, ¬ ((x ≤ p ∧ p < x + qfloor (w * r)) ∧
        (x + qfloor (w * r) ≤ p ∧ p < x + w)))) ∧
    (o = .horizontal →
      computeBounds (some (.split i o r f s)) x y w h =
        (i, ⟨x, y, w, h⟩) ::
          (computeBoundsNode f x y w (qfloor (h * r)) ++
            computeBoundsNode s x (y + qfloor (h * r)) w (h - qfloor (h * r))) ∧
      qfloor (h * r) + (h - qfloor (h * r)) = h ∧
      0 ≤ qfloor (h * r) ∧ qfloor (h * r) ≤ h ∧
      (∀ p : ℚ, (y ≤ p ∧ p < y + h) ↔
        ((y ≤ p ∧ p < y + qfloor (h * r)) ∨
          (y + qfloor (h * r) ≤ p ∧ p < y + h))) ∧
      (∀ p : ℚ, ¬ ((y ≤ p ∧ p < y + qfloor (h * r)) ∧
        (y + qfloor (h * r) ≤ p ∧ p < y + h)))) := by
  have key : ∀ e : ℚ, 0 ≤ e → 0 ≤ qfloor (e * r) ∧ qfloor (e * r) ≤ e := by
    intro e he
    constructor
    · exact qfloor_nonneg (mul_nonneg he hr0.le)
    · exact le_trans (qfloor_le (e * r)) (mul_le_of_le_one_right he hr1.le)
  constructor
  · intro ho
    subst ho
    obtain ⟨k1, k2⟩ := key w hw
    refine ⟨rfl, by ring, k1, k2, ?_, ?_⟩
    · intro p
      constructor
      · rintro ⟨hp1, hp2⟩
        by_cases hc : p < x + qfloor (w * r)
        · exact Or.inl ⟨hp1, hc⟩
        · exact Or.inr ⟨not_lt.mp hc, hp2⟩
      · rintro (⟨hp1, hp2⟩ | ⟨hp1, hp2⟩)
        · exact ⟨hp1, by linarith⟩
        · exact ⟨by linarith, hp2⟩
    · rintro p ⟨⟨_, hp2⟩, hp3, _⟩
      linarith
  · intro ho
    subst ho
    obtain ⟨k1, k2⟩ := key h hh
    refine ⟨rfl, by ring, k1, k2, ?_, ?_⟩
    · intro p
      constructor
      · rintro ⟨hp1, hp2⟩
        by_cases hc : p < y + qfloor (h * r)
        · exact Or.inl ⟨hp1, hc⟩
        · exact Or.inr ⟨not_lt.mp hc, hp2⟩
      · rintro (⟨hp1, hp2⟩ | ⟨hp1, hp2⟩)
        · exact ⟨hp1, by linarith⟩
        · exact ⟨by linarith, hp2⟩
    · rintro p ⟨⟨_, hp2⟩, hp3, _⟩
      linarith

theorem C3_witness :
    qfloor ((100 : ℚ) * (1/2)) + ((100 : ℚ) - qfloor ((100 : ℚ) * (1/2))) = 100 ∧
    (0 : ℚ) ≤ qfloor ((100 : ℚ) * (1/2)) := by
  have hres := C3_computeBounds_split_partition 0 .vertical (1/2)
    (.leaf 1 none) (.leaf 2 none) 0 0 100 100
    one_half_pos one_half_lt_one (by decide) (by decide)
  obtain ⟨hv, -⟩ := hres
  obtain ⟨-, hsum, hnn, -⟩ := hv rfl
  exact ⟨hsum, hnn⟩

/-- C4 counterexample: a two-leaf vertical split of a 100-wide outer
rectangle, hit-tested at the boundary point px = x + firstWidth = 50.
The deepest-node hit test returns the FIRST child's leaf, not the second
child: the containment test `px < x || px > x + width || ...` makes every
rectangle closed (not half-open) on its right edge, and the first child
is tried first. -/
theorem C4_cex_boundary_goes_first :
    findDeepestNodeAtPoint
      (some (.split 0 .vertical (1/2) (.leaf 1 (some 1)) (.leaf 2 (some 2))))
      0 0 100 100 50 50 = some (.leaf 1 (some 1)) ∧
    some (LayoutNode.leaf 1 (some 1)) ≠ some (LayoutNode.leaf 2 (some 2)) := by
  constructor
  · norm_num [findDeepestNodeAtPoint, findDeepestNode, qfloor]
  · decide

/-- C4 amended: for every split and every point lying exactly on the
boundary between its two children (px = x + floor(width * ratio) for a
vertical split with the y-coordinate inside the rectangle, and
transposed, py = y + floor(height * ratio) with the x-coordinate inside
the rectangle, for a horizontal split), the deepest-node hit test
descends into the FIRST child and returns a leaf of it, because the
containment test is closed on all four edges, so the first child's
rectangle is the closed interval [x, x + firstWidth] (respectively
[y, y + firstHeight]) and the first child is tried first. -/
theorem C4_boundary_descends_first (i : ℕ) (r : ℚ) (f s : LayoutNode)
    (x y w h px py : ℚ) (hr0 : 0 < r) (hr1 : r < 1) :
    (0 ≤ w → y ≤ py → py ≤ y + h →
      findDeepestNodeAtPoint (some (.split i .vertical r f s)) x y w h
          (x + qfloor (w * r)) py =
        findDeepestNode f x y (qfloor (w * r)) h (x + qfloor (w * r)) py ∧
      ∃ m, findDeepestNode f x y (qfloor (w * r)) h (x + qfloor (w * r)) py =
        some m ∧ isLeafNode m = true) ∧
    (0 ≤ h → x ≤ px → px ≤ x + w →
      findDeepestNodeAtPoint (some (.split i .horizontal r f s)) x y w h
          px (y + qfloor (h * r)) =
        findDeepestNode f x y w (qfloor (h * r)) px (y + qfloor (h * r)) ∧
      ∃ m, findDeepestNode f x y w (qfloor (h * r)) px (y + qfloor (h * r)) =
        some m ∧ isLeafNode m = true) := by
  constructor
  · intro hw hy1 hy2
    have k1 : 0 ≤ qfloor (w * r) := qfloor_nonneg (mul_nonneg hw hr0.le)
    have k2 : qfloor (w * r) ≤ w :=
      le_trans (qfloor_le (w * r)) (mul_le_of_le_one_right hw hr1.le)
    obtain ⟨m, hm, hl⟩ := findDeepestNode_isSome f x y (qfloor (w * r)) h
      (x + qfloor (w * r)) py (by linarith) (by linarith) hy1 hy2
    have hnc : ¬ (x + qfloor (w * r) < x ∨ x + w < x + qfloor (w * r) ∨
        py < y ∨ y + h < py) := by
      push_neg
      exact ⟨by linarith, by linarith, hy1, hy2⟩
    constructor
    · show findDeepestNode (.split i .vertical r f s) x y w h (x + qfloor (w * r)) py = _
      rw [findDeepestNode_vsplit_in i r f s x y w h (x + qfloor (w * r)) py hnc, hm]
    · exact ⟨m, hm, hl⟩
  · intro hh hx1 hx2
    have k1 : 0 ≤ qfloor (h * r) := qfloor_nonneg (mul_nonneg hh hr0.le)
    have k2 : qfloor (h * r) ≤ h :=
      le_trans (qfloor_le (h * r)) (mul_le_of_le_one_right hh hr1.le)
    obtain ⟨m, hm, hl⟩ := findDeepestNode_isSome f x y w (qfloor (h * r))
      px (y + qfloor (h * r)) hx1 hx2 (by linarith) (by linarith)
    have hnc : ¬ (px < x ∨ x + w < px ∨
        y + qfloor (h * r) < y ∨ y + h < y + qfloor (h * r)) := by
      push_neg
      exact ⟨hx1, hx2, by linarith, by linarith⟩
    constructor
    · show findDeepestNode (.split i .horizontal r f s) x y w h px (y + qfloor (h * r)) = _
      rw [findDeepestNode_hsplit_in i r f s x y w h px (y + qfloor (h * r)) hnc, hm]
    · exact ⟨m, hm, hl⟩

theorem C4_witness :
    (findDeepestNodeAtPoint
      (some (.split 0 .vertical (1/2) (.leaf 1 (some 1)) (.leaf 2 (some 2))))
      0 0 100 100 (0 + qfloor (100 * (1/2))) 50 =
      findDeepestNode (.leaf 1 (some 1)) 0 0 (qfloor (100 * (1/2))) 100
        (0 + qfloor (100 * (1/2))) 50) ∧
    (findDeepestNodeAtPoint
      (some (.split 0 .horizontal (1/2) (.leaf 1 (some 1)) (.leaf 2 (some 2))))
      0 0 100 100 50 (0 + qfloor (100 * (1/2))) =
      findDeepestNode (.leaf 1 (some 1)) 0 0 100 (qfloor (100 * (1/2)))
        50 (0 + qfloor (100 * (1/2)))) :=
  ⟨((C4_boundary_descends_first 0 (1/2) (.leaf 1 (some 1)) (.leaf 2 (some 2))
      0 0 100 100 50 50 one_half_pos one_half_lt_one).1
    (by decide) (by decide) (by norm_num)).1,
   ((C4_boundary_descends_first 0 (1/2) (.leaf 1 (some 1)) (.leaf 2 (some 2))
      0 0 100 100 50 50 one_half_pos one_half_lt_one).2
    (by decide) (by decide) (by norm_num)).1⟩

/-- C5 counterexample: a single occupied leaf over a 3-wide, 10-tall
viewport, hit-tested at (1, 5).  The nearest side is left, and the
preview width is `Math.round(3 / 2) = 2`, not `floor(3 / 2) = 1` as the
claim states: the source uses `Math.round`, not floor-and-remainder, so
for odd extents the preview is not the floor-half. -/
theorem C5_cex_round_not_floor :
    hitTestForPreview (some (.leaf 0 (some 1))) 3 10 1 5 =
      some ⟨0, 0, 2, 10, some 0, Side.left⟩ ∧
    (2 : ℚ) ≠ qfloor ((3 : ℚ) / 2) := by
  constructor
  · norm_num [hitTestForPreview, targetNodeOf, findDeepestNodeAtPoint, findDeepestNode,
      boundsMapOf, computeBounds, computeBoundsNode, mapGet, nodeId, jround, qfloor,
      min_def]
  · norm_num [qfloor]

/-- C5 amended: whenever `computeSnapPreview` hits a leaf (the hit test
returns a node whose looked-up bounds are `b`) and returns a preview, the
preview's extent on the chosen axis is `Math.round(size / 2)` — i.e.
`jround`, floor of size/2 + 1/2 — for both halves (the second half
starting at offset `round(size / 2)`, so for odd sizes the two halves are
not floor and remainder and the second half can exceed the leaf by one
pixel), and the preview spans the full leaf extent on the other axis.
For even sizes this coincides with the claimed exact halves. -/
theorem C5_leaf_preview_round_half (root : Option LayoutNode) (vw vh px py : ℚ)
    (tn : LayoutNode) (b : Bounds) (p : SnapPreview)
    (htn : targetNodeOf root vw vh px py = some tn)
    (hb : mapGet (boundsMapOf root vw vh) (nodeId tn) = some b)
    (hp : hitTestForPreview root vw vh px py = some p) :
    (p.side = Side.left →
      p = ⟨b.x, b.y, jround (b.width / 2), b.height, some (nodeId tn), Side.left⟩) ∧
    (p.side = Side.right →
      p = ⟨b.x + jround (b.width / 2), b.y, jround (b.width / 2), b.height,
        some (nodeId tn), Side.right⟩) ∧
    (p.side = Side.top →
      p = ⟨b.x, b.y, b.width, jround (b.height / 2), some (nodeId tn), Side.top⟩) ∧
    (p.side = Side.bottom →
      p = ⟨b.x, b.y + jround (b.height / 2), b.width, jround (b.height / 2),
        some (nodeId tn), Side.bottom⟩) := by
  simp only [hitTestForPreview, htn, hb] at hp
  by_cases h1 : 50 < min (min (px - b.x) (b.x + b.width - px))
      (min (py - b.y) (b.y + b.height - py))
  · rw [if_pos h1] at hp
    cases hp
  · rw [if_neg h1] at hp
    by_cases h2 : min (min (px - b.x) (b.x + b.width - px))
        (min (py - b.y) (b.y + b.height - py)) = px - b.x
    · rw [if_pos h2] at hp
      cases hp
      refine ⟨?_, ?_, ?_, ?_⟩ <;> intro hs <;> first | rfl | simp at hs
    · rw [if_neg h2] at hp
      by_cases h3 : min (min (px - b.x) (b.x + b.width - px))
          (min (py - b.y) (b.y + b.height - py)) = b.x + b.width - px
      · rw [if_pos h3] at hp
        cases hp
        refine ⟨?_, ?_, ?_, ?_⟩ <;> intro hs <;> first | rfl | simp at hs
      · rw [if_neg h3] at hp
        by_cases h4 : min (min (px - b.x) (b.x + b.width - px))
            (min (py - b.y) (b.y + b.height - py)) = py - b.y
        · rw [if_pos h4] at hp
          cases hp
          refine ⟨?_, ?_, ?_, ?_⟩ <;> intro hs <;> first | rfl | simp at hs
        · rw [if_neg h4] at hp
          cases hp
          refine ⟨?_, ?_, ?_, ?_⟩ <;> intro hs <;> first | rfl | simp at hs

theorem C5_witness :
    (⟨0, 0, 2, 10, some 0, Side.left⟩ : SnapPreview) =
      ⟨(0 : ℚ), 0, jround ((3 : ℚ) / 2), 10, some 0, Side.left⟩ := by
  have happ := C5_leaf_preview_round_half (some (.leaf 0 (some 1))) 3 10 1 5
    (.leaf 0 (some 1)) ⟨0, 0, 3, 10⟩ ⟨0, 0, 2, 10, some 0, Side.left⟩
    (by norm_num [targetNodeOf, findDeepestNodeAtPoint, findDeepestNode])
    (by norm_num [boundsMapOf, computeBounds, computeBoundsNode, mapGet, nodeId])
    (by norm_num [hitTestForPreview, targetNodeOf, findDeepestNodeAtPoint,
      findDeepestNode, boundsMapOf, computeBounds, computeBoundsNode, mapGet, nodeId,
      jround, qfloor, min_def])
  exact happ.1 rfl

/-- C6: if the point's minimum distance to all candidate edges — measured
as the source measures them: to the hit leaf's four edges (via its
looked-up bounds) when the hit test returns a node, otherwise to the four
viewport edges — exceeds the 50-pixel snap threshold, then
`hitTestForPreview` returns `none`. -/
theorem C6_far_point_no_snap (root : Option LayoutNode) (vw vh px py : ℚ)
    (hleaf : ∀ tn b, targetNodeOf root vw vh px py = some tn →
      mapGet (boundsMapOf root vw vh) (nodeId tn) = some b →
      50 < min (min (px - b.x) (b.x + b.width - px))
        (min (py - b.y) (b.y + b.height - py)))
    (hvp : targetNodeOf root vw vh px py = none →
      50 < min (min (px - 0) (vw - px)) (min (py - 0) (vh - py))) :
    hitTestForPreview root vw vh px py = none := by
  cases htn : targetNodeOf root vw vh px py with
  | some tn =>
    cases hb : mapGet (boundsMapOf root vw vh) (nodeId tn) with
    | none => simp only [hitTestForPreview, htn, hb]
    | some b =>
      have hd := hleaf tn b htn hb
      simp only [hitTestForPreview, htn, hb]
      rw [if_pos hd]
  | none =>
    have hd := hvp htn
    have hd1 := lt_min_iff.mp hd
    have hda := (lt_min_iff.mp hd1.1).1
    have hdb := (lt_min_iff.mp hd1.1).2
    have hdc := (lt_min_iff.mp hd1.2).1
    have hdd := (lt_min_iff.mp hd1.2).2
    simp only [hitTestForPreview, htn]
    rw [if_neg (by linarith : ¬ (px ≤ 50)), if_neg (by linarith : ¬ (vw - 50 ≤ px)),
      if_neg (by linarith : ¬ (py ≤ 50)), if_neg (by linarith : ¬ (vh - 50 ≤ py))]

theorem C6_witness :
    hitTestForPreview (none : Option LayoutNode) 1000 1000 500 500 = none :=
  C6_far_point_no_snap none 1000 1000 500 500
    (fun tn b htn _ => by simp [targetNodeOf, findDeepestNodeAtPoint] at htn)
    (fun _ => by norm_num [min_def])

/-- C7: for every tree containing a leaf with the target id (the id
occurring exactly once, as the id generator intends): if the leaf is
unoccupied, insert returns the tree with just that leaf now holding the
occupant — no new nodes, the id counter is untouched; if the leaf is
occupied, insert replaces it by a fresh split with ratio 0.5 whose
children are the old leaf and a fresh leaf holding the new occupant,
the new occupant first exactly when the side is left or top, with
orientation vertical for left/right and horizontal for top/bottom. -/
theorem C7_insert_at_leaf (t : LayoutNode) (tid : ℕ) (win : Option ℤ) (w : ℤ)
    (side : Side) (g : ℕ)
    (hc : containsNode t (.leaf tid win) = true)
    (h1 : idCount t tid = 1) :
    (win = none →
      insertIntoLayout w (some tid) side (some t) g =
        (some (replaceById tid (.leaf tid (some w)) t), g)) ∧
    (∀ v, win = some v →
      insertIntoLayout w (some tid) side (some t) g =
        (some (replaceById tid
          (.split (g + 1)
            (if side = Side.left ∨ side = Side.right then Orientn.vertical
             else Orientn.horizontal)
            (1/2)
            (if side = Side.left ∨ side = Side.top then .leaf g (some w)
             else .leaf tid (some v))
            (if side = Side.left ∨ side = Side.top then .leaf tid (some v)
             else .leaf g (some w))) t),
          g + 2)) := by
  constructor
  · intro hwin
    subst hwin
    have key := replaceNode_eq_replaceById t (.leaf tid none) w side g hc
      (by simpa [nodeId] using h1)
    simp only [nodeId] at key
    simp only [insertIntoLayout, key, replacementFor, genCost]
    simp
  · intro v hwin
    subst hwin
    have key := replaceNode_eq_replaceById t (.leaf tid (some v)) w side g hc
      (by simpa [nodeId] using h1)
    simp only [nodeId] at key
    simp only [insertIntoLayout, key, replacementFor, genCost]
    simp [sideOrientn, newFirstIsWindow]

theorem C7_witness :
    insertIntoLayout 9 (some 5) Side.left (some (.leaf 5 none)) 100 =
      (some (replaceById 5 (.leaf 5 (some 9)) (.leaf 5 none)), 100) :=
  (C7_insert_at_leaf (.leaf 5 none) 5 none 9 Side.left 100
    (by decide) (by decide)).1 rfl

/-- C10: for every tree containing a split with the target id (the id
occurring exactly once), insert is not a no-op and does not fail: it
replaces the whole split subtree by a fresh split of ratio 0.5 whose
children are a fresh leaf holding the inserted occupant and the old
subtree unchanged, the new leaf first exactly when the side is left or
top, with orientation vertical for left/right and horizontal for
top/bottom. -/
theorem C10_insert_at_split (t : LayoutNode) (tid : ℕ) (o : Orientn) (r : ℚ)
    (f s : LayoutNode) (w : ℤ) (side : Side) (g : ℕ)
    (hc : containsNode t (.split tid o r f s) = true)
    (h1 : idCount t tid = 1) :
    insertIntoLayout w (some tid) side (some t) g =
      (some (replaceById tid
        (.split (g + 1)
          (if side = Side.left ∨ side = Side.right then Orientn.vertical
           else Orientn.horizontal)
          (1/2)
          (if side = Side.left ∨ side = Side.top then .leaf g (some w)
           else .split tid o r f s)
          (if side = Side.left ∨ side = Side.top then .split tid o r f s
           else .leaf g (some w))) t),
        g + 2) := by
  have key := replaceNode_eq_replaceById t (.split tid o r f s) w side g hc
    (by simpa [nodeId] using h1)
  simp only [nodeId] at key
  simp only [insertIntoLayout, key, replacementFor, genCost]
  simp [sideOrientn, newFirstIsWindow]

theorem C10_witness :
    insertIntoLayout 9 (some 3) Side.bottom
      (some (.split 3 .vertical 1 (.leaf 1 (some 4)) (.leaf 2 none))) 50 =
      (some (replaceById 3
        (.split 51
          (if Side.bottom = Side.left ∨ Side.bottom = Side.right then Orientn.vertical
           else Orientn.horizontal)
          (1/2)
          (if Side.bottom = Side.left ∨ Side.bottom = Side.top then .leaf 50 (some 9)
           else .split 3 .vertical 1 (.leaf 1 (some 4)) (.leaf 2 none))
          (if Side.bottom = Side.left ∨ Side.bottom = Side.top then
            .split 3 .vertical 1 (.leaf 1 (some 4)) (.leaf 2 none)
           else .leaf 50 (some 9)))
        (.split 3 .vertical 1 (.leaf 1 (some 4)) (.leaf 2 none))), 52) :=
  C10_insert_at_split (.split 3 .vertical 1 (.leaf 1 (some 4)) (.leaf 2 none))
    3 .vertical 1 (.leaf 1 (some 4)) (.leaf 2 none) 9 Side.bottom 50
    (by decide) (by decide)

end WindowTiler
